import Mathlib

/-!
Verification of the yml2tex rendering engine (`yml2tex/__init__.py`).

The Python source is shallowly embedded below.  Pure functions become Lean
functions over `String` / `List Char`; the two pieces of process state
(`global_options.list_pause` and the file-reading collaborator
`_output_code`) become explicit parameters; Python exceptions become
`Except` results.
-/

set_option maxRecDepth 4096

namespace Yml2tex

/-- Substitution table and lookup of `_escape_output` (source lines 90-113):
the Python dict `dic` (whose duplicate `'|'` entry carries the same value and
collapses to a single entry) queried with `dic.get(letter, letter)`. -/
def esc (c : Char) : List Char :=
  if c = '&' then "\\&".data
  else if c = '$' then "\\$".data
  else if c = '%' then "\\%".data
  else if c = '#' then "\\#".data
  else if c = '_' then "\\_".data
  else if c = '{' then "\\\x7b".data
  else if c = '}' then "\\\x7d".data
  else if c = '[' then "\\([\\)".data
  else if c = ']' then "\\(]\\)".data
  else if c = '<' then "\\textless ".data
  else if c = '>' then "\\textgreater ".data
  else if c = '|' then "\\textbar~".data
  else if c = '^' then "\\^\x7b\x7d".data
  else [c]

/-- The per-letter loop of `_escape_output` (source lines 110-114):
each letter is replaced by `dic.get(letter, letter)` and the pieces joined. -/
def escapeL : List Char → List Char
  | [] => []
  | c :: cs => esc c ++ escapeL cs

/-- `_escape_output` (source lines 86-115). -/
def _escape_output (s : String) : String := String.mk (escapeL s.data)

/-- The keys of the substitution dict: the reserved characters. -/
def RL : List Char := ['&', '$', '%', '#', '_', '{', '}', '[', ']', '<', '>', '|', '^']

lemma esc_not_reserved (c : Char) (h : c ∉ RL) : esc c = [c] := by
  simp only [RL, List.mem_cons, List.not_mem_nil, or_false, not_or] at h
  obtain ⟨h1, h2, h3, h4, h5, h6, h7, h8, h9, h10, h11, h12, h13⟩ := h
  simp only [esc, if_neg h1, if_neg h2, if_neg h3, if_neg h4, if_neg h5, if_neg h6,
    if_neg h7, if_neg h8, if_neg h9, if_neg h10, if_neg h11, if_neg h12, if_neg h13]

lemma esc_ne_nil (c : Char) : esc c ≠ [] := by
  by_cases h : c ∈ RL
  · fin_cases h <;> decide
  · rw [esc_not_reserved c h]; simp

lemma esc_head (a : Char) (h : a ∈ RL) : (esc a).head? = some '\\' := by
  fin_cases h <;> decide

lemma esc_take_inj : ∀ a ∈ RL, ∀ b ∈ RL,
    esc a = (esc b).take (esc a).length → a = b := by decide

lemma take_append_self (l u : List Char) : (l ++ u).take l.length = l := by
  induction l with
  | nil => simp
  | cons c cs ih => simp [ih]

lemma drop_append_self (l u : List Char) : (l ++ u).drop l.length = u := by
  induction l with
  | nil => simp
  | cons c cs ih => simp [ih]

lemma take_append_le (l u : List Char) (n : Nat) (h : n ≤ l.length) :
    (l ++ u).take n = l.take n := by
  induction l generalizing n with
  | nil =>
    have hn : n = 0 := Nat.le_zero.mp h
    subst hn; simp
  | cons c cs ih =>
    cases n with
    | zero => simp
    | succ m =>
      simp only [List.cons_append, List.take_succ_cons]
      rw [ih m (by simpa using h)]

/-- If two escape images head the same character stream, the escaped characters
agree (the images form a prefix-free code away from the backslash). -/
lemma esc_append_cancel (a b : Char) (ha : a ≠ '\\') (hb : b ≠ '\\') (u v : List Char)
    (h : esc a ++ u = esc b ++ v) : a = b ∧ u = v := by
  have key : a = b := by
    by_cases hra : a ∈ RL
    · by_cases hrb : b ∈ RL
      · rcases Nat.le_total (esc a).length (esc b).length with hle | hle
        · have h1 : (esc a ++ u).take (esc a).length = esc a := take_append_self _ _
          have h2 : (esc b ++ v).take (esc a).length = (esc b).take (esc a).length :=
            take_append_le _ _ _ hle
          refine esc_take_inj a hra b hrb ?_
          calc esc a = (esc a ++ u).take (esc a).length := h1.symm
            _ = (esc b ++ v).take (esc a).length := by rw [h]
            _ = (esc b).take (esc a).length := h2
        · have h1 : (esc b ++ v).take (esc b).length = esc b := take_append_self _ _
          have h2 : (esc a ++ u).take (esc b).length = (esc a).take (esc b).length :=
            take_append_le _ _ _ hle
          refine (esc_take_inj b hrb a hra ?_).symm
          calc esc b = (esc b ++ v).take (esc b).length := h1.symm
            _ = (esc a ++ u).take (esc b).length := by rw [h]
            _ = (esc a).take (esc b).length := h2
      · exfalso
        have hb' : esc b = [b] := esc_not_reserved b hrb
        have hhd : (esc a).head? = some '\\' := esc_head a hra
        rw [hb'] at h
        cases hesc : esc a with
        | nil => exact esc_ne_nil a hesc
        | cons c cs =>
          rw [hesc] at h hhd
          simp only [List.head?_cons, Option.some.injEq] at hhd
          have h' : c :: (cs ++ u) = b :: v := by simpa using h
          rw [List.cons.injEq] at h'
          exact hb (h'.1 ▸ hhd ▸ rfl)
    · by_cases hrb : b ∈ RL
      · exfalso
        have ha' : esc a = [a] := esc_not_reserved a hra
        have hhd : (esc b).head? = some '\\' := esc_head b hrb
        rw [ha'] at h
        cases hesc : esc b with
        | nil => exact esc_ne_nil b hesc
        | cons c cs =>
          rw [hesc] at h hhd
          simp only [List.head?_cons, Option.some.injEq] at hhd
          have h' : a :: u = c :: (cs ++ v) := by simpa using h
          rw [List.cons.injEq] at h'
          exact ha (h'.1.symm ▸ hhd ▸ rfl)
      · have ha' : esc a = [a] := esc_not_reserved a hra
        have hb' : esc b = [b] := esc_not_reserved b hrb
        rw [ha', hb'] at h
        have h' : a :: u = b :: v := by simpa using h
        rw [List.cons.injEq] at h'
        exact h'.1
  subst key
  refine ⟨rfl, ?_⟩
  have hd : (esc a ++ u).drop (esc a).length = (esc a ++ v).drop (esc a).length := by rw [h]
  rwa [drop_append_self, drop_append_self] at hd

/-- Injectivity of the escaping loop on backslash-free character lists. -/
lemma escapeL_inj (s : List Char) : ∀ t : List Char, '\\' ∉ s → '\\' ∉ t →
    escapeL s = escapeL t → s = t := by
  induction s with
  | nil =>
    intro t _ _ h
    cases t with
    | nil => rfl
    | cons c cs =>
      exfalso
      simp only [escapeL] at h
      cases hesc : esc c with
      | nil => exact esc_ne_nil c hesc
      | cons d ds => rw [hesc] at h; simp at h
  | cons a as ih =>
    intro t hs ht h
    cases t with
    | nil =>
      exfalso
      simp only [escapeL] at h
      cases hesc : esc a with
      | nil => exact esc_ne_nil a hesc
      | cons d ds => rw [hesc] at h; simp at h
    | cons b bs =>
      simp only [escapeL] at h
      have ha : a ≠ '\\' := fun hh => hs (by simp [hh])
      have hb : b ≠ '\\' := fun hh => ht (by simp [hh])
      obtain ⟨hab, htl⟩ := esc_append_cancel a b ha hb _ _ h
      subst hab
      have hs' : '\\' ∉ as := fun hx => hs (List.mem_cons_of_mem _ hx)
      have ht' : '\\' ∉ bs := fun hx => ht (List.mem_cons_of_mem _ hx)
      rw [ih bs hs' ht' htl]

lemma escapeL_not_reserved (s : List Char) (h : ∀ c ∈ s, c ∉ RL) : escapeL s = s := by
  induction s with
  | nil => rfl
  | cons c cs ih =>
    simp only [escapeL]
    rw [esc_not_reserved c (h c (by simp)), ih (fun d hd => h d (List.mem_cons_of_mem _ hd))]
    simp

/-- C2 (counterexample): the escaping transform of `_escape_output` is not
invertible.  The distinct inputs `[<` and `[\textless ` (each containing the
reserved character `[`) have identical escaped output, so no reversal of the
reserved-character substitutions can recover the original text of both. -/
theorem escape_not_invertible_counterexample :
    _escape_output "[<" = _escape_output "[\\textless " ∧
      ("[<" : String) ≠ "[\\textless " := by
  constructor
  · decide
  · decide

/-- C2 (amended): the substitution table is injective on its domain (the 13
reserved characters), and the escaping transform is injective — hence
invertible — on all inputs that contain no backslash character. -/
theorem escape_invertible_amended :
    (∀ a ∈ RL, ∀ b ∈ RL, esc a = esc b → a = b) ∧
    (∀ s t : String, '\\' ∉ s.data → '\\' ∉ t.data →
      _escape_output s = _escape_output t → s = t) := by
  constructor
  · decide
  · intro s t hs ht h
    have hdata : escapeL s.data = escapeL t.data := congrArg String.data h
    cases s with
    | mk ds =>
      cases t with
      | mk dt => exact congrArg String.mk (escapeL_inj ds dt hs ht hdata)

/-- Witness for the amended C2 theorem at a concrete input. -/
theorem escape_invertible_amended_witness : ("a&b" : String) = "a&b" :=
  escape_invertible_amended.2 "a&b" "a&b" (by decide) (by decide) rfl

/-- C8: on text containing none of the reserved characters, escaping is the
identity, and hence escaping twice equals escaping once. -/
theorem escape_idempotent_plain :
    ∀ s : String, (∀ c ∈ s.data, c ∉ RL) →
      _escape_output s = s ∧ _escape_output (_escape_output s) = _escape_output s := by
  intro s h
  have h1 : _escape_output s = s := by
    cases s with
    | mk d => exact congrArg String.mk (escapeL_not_reserved d h)
  exact ⟨h1, by conv_lhs => rw [h1]⟩

/-- Witness for C8 at a concrete input. -/
theorem escape_idempotent_plain_witness :
    _escape_output "hello" = "hello" ∧
      _escape_output (_escape_output "hello") = _escape_output "hello" :=
  escape_idempotent_plain "hello" (by decide)

/-- Python `str.split(' ')`: split on every single space, keeping empty
fields, as used by `title.split(' ')` in `code`, `inlinecode` and `image`. -/
def splitSp : List Char → List (List Char)
  | [] => [[]]
  | c :: cs =>
    if c = ' ' then [] :: splitSp cs
    else
      match splitSp cs with
      | [] => [[c]]
      | w :: ws => (c :: w) :: ws

def split_sp (s : String) : List String := (splitSp s.data).map String.mk

/-- `title.split(' ')[1]`: `none` models the `IndexError` raised by Python
when the title has no second field. -/
def tok1 (s : String) : Option String := (split_sp s)[1]?

/-- Python `str.startswith`. -/
def startswith (s p : String) : Bool := p.data.isPrefixOf s.data

lemma splitSp_no_sp (l : List Char) (h : ' ' ∉ l) : splitSp l = [l] := by
  induction l with
  | nil => rfl
  | cons c cs ih =>
    have hc : ¬c = ' ' := fun hh => h (by simp [hh])
    have ih' := ih (fun hx => h (List.mem_cons_of_mem _ hx))
    simp only [splitSp, if_neg hc, ih']

lemma splitSp_word (w rest : List Char) (hw : ' ' ∉ w) :
    splitSp (w ++ ' ' :: rest) = w :: splitSp rest := by
  induction w with
  | nil => simp [splitSp]
  | cons c w' ih =>
    have hc : ¬c = ' ' := fun hh => hw (by simp [hh])
    have ih' := ih (fun hx => hw (List.mem_cons_of_mem _ hx))
    simp only [List.cons_append, splitSp, if_neg hc, List.append_eq]
    rw [ih']

/-- A `ListItem` of a bullet frame: either a plain string or a nested ordered
sequence, which the loader delivers as a list of (label, children) pairs. -/
inductive LItem where
  | s (text : String)
  | nested (ps : List (String × List LItem))

/-- Python exceptions that the embedded rendering functions can raise. -/
inductive PyErr where
  | typeError
  | attributeError
  | valueError
  | indexError
deriving DecidableEq

/-- `inlinecode` (source lines 197-206).  `oc` is the output of
`_output_code`, the file-reading collaborator, passed as a parameter. -/
def inlinecode (oc : String → String) (item : String) : Except PyErr String :=
  match tok1 item with
  | none => .error .indexError
  | some filename =>
    .ok ("\n\\vspace\x7b0.5em\x7d" ++ oc filename ++ "\\vspace\x7b0.5em\x7d")

/-- The optional incremental-reveal modifier of `itemize` (source line 126-127),
controlled by `global_options.list_pause`. -/
def pauseOpt (pause : Bool) : String := if pause then "[<+-| alert@+>]" else ""

/-- `n` copies of a string in a row: the contribution of the
`for i in item` loop of `itemize` (source lines 130-132), whose body reads
only `item[0]` and therefore appends the same text `len(item)` times. -/
def dupStr : Nat → String → String
  | 0, _ => ""
  | n + 1, s => s ++ dupStr n s

mutual

/-- `itemize` (source lines 117-139). -/
def itemize (oc : String → String) (pause : Bool) (items : List LItem) :
    Except PyErr String :=
  match itemizeBody oc pause items with
  | .error e => .error e
  | .ok body =>
    .ok ("\n\t\\begin\x7bitemize\x7d" ++ pauseOpt pause ++ body ++
      "\n\t\\end\x7bitemize\x7d")
termination_by (sizeOf items, 1)

/-- The `for item in items` loop of `itemize` (source lines 128-137). -/
def itemizeBody (oc : String → String) (pause : Bool) :
    List LItem → Except PyErr String
  | [] => .ok ""
  | it :: rest =>
    match renderItem oc pause it with
    | .error e => .error e
    | .ok s =>
      match itemizeBody oc pause rest with
      | .error e => .error e
      | .ok r => .ok (s ++ r)
termination_by items => (sizeOf items, 0)

/-- One iteration of the `itemize` loop (source lines 129-137).  For a nested
sequence the source iterates `len(item)` times but reads only `item[0]`. -/
def renderItem (oc : String → String) (pause : Bool) : LItem → Except PyErr String
  | .s t =>
    if startswith t "include" then inlinecode oc t
    else .ok ("\n\t\\item " ++ _escape_output t)
  | .nested [] => .ok ""
  | .nested ((label, children) :: rest) =>
    match itemize oc pause children with
    | .error e => .error e
    | .ok sub =>
      .ok (dupStr (rest.length + 1) ("\n\t\\item " ++ _escape_output label ++ sub))
termination_by it => (sizeOf it, 0)

end

/-- Concatenation of the per-item outputs, for stating what the loop emits. -/
def joinStr : List String → String
  | [] => ""
  | s :: rest => s ++ joinStr rest

lemma itemize_ok (oc : String → String) (pause : Bool) (items : List LItem)
    (b : String) (h : itemizeBody oc pause items = .ok b) :
    itemize oc pause items =
      .ok ("\n\t\\begin\x7bitemize\x7d" ++ pauseOpt pause ++ b ++
        "\n\t\\end\x7bitemize\x7d") := by
  rw [itemize, h]

lemma itemizeBody_nil (oc : String → String) (pause : Bool) :
    itemizeBody oc pause [] = .ok "" := by
  rw [itemizeBody]

lemma itemizeBody_cons_ok (oc : String → String) (pause : Bool) (it : LItem)
    (rest : List LItem) (s r : String) (h1 : renderItem oc pause it = .ok s)
    (h2 : itemizeBody oc pause rest = .ok r) :
    itemizeBody oc pause (it :: rest) = .ok (s ++ r) := by
  rw [itemizeBody, h1, h2]

lemma renderItem_str (oc : String → String) (pause : Bool) (t : String)
    (h : startswith t "include" = false) :
    renderItem oc pause (.s t) = .ok ("\n\t\\item " ++ _escape_output t) := by
  rw [renderItem, h]
  rfl

lemma renderItem_nested_map (oc : String → String) (pause : Bool) (lab : String)
    (ch : List LItem) (rest : List (String × List LItem)) :
    renderItem oc pause (.nested ((lab, ch) :: rest)) =
      Except.map
        (fun sub => dupStr (rest.length + 1) ("\n\t\\item " ++ _escape_output lab ++ sub))
        (itemize oc pause ch) := by
  rw [renderItem]
  cases h : itemize oc pause ch <;> simp [Except.map]

lemma renderItem_nested_ok (oc : String → String) (pause : Bool) (lab : String)
    (ch : List LItem) (rest : List (String × List LItem)) (sub : String)
    (h : itemize oc pause ch = .ok sub) :
    renderItem oc pause (.nested ((lab, ch) :: rest)) =
      .ok (dupStr (rest.length + 1) ("\n\t\\item " ++ _escape_output lab ++ sub)) := by
  rw [renderItem_nested_map, h]
  rfl

lemma itemizeBody_strings (oc : String → String) (pause : Bool) (ts : List String)
    (h : ∀ t ∈ ts, startswith t "include" = false) :
    itemizeBody oc pause (ts.map .s) =
      .ok (joinStr (ts.map fun t => "\n\t\\item " ++ _escape_output t)) := by
  induction ts with
  | nil => simpa [joinStr] using itemizeBody_nil oc pause
  | cons t rest ih =>
    have h1 := renderItem_str oc pause t (h t (by simp))
    have h2 := ih (fun x hx => h x (List.mem_cons_of_mem _ hx))
    simpa [joinStr] using itemizeBody_cons_ok oc pause _ _ _ _ h1 h2

lemma itemize_strings (oc : String → String) (pause : Bool) (ts : List String)
    (h : ∀ t ∈ ts, startswith t "include" = false) :
    itemize oc pause (ts.map .s) =
      .ok ("\n\t\\begin\x7bitemize\x7d" ++ pauseOpt pause ++
        joinStr (ts.map fun t => "\n\t\\item " ++ _escape_output t) ++
        "\n\t\\end\x7bitemize\x7d") :=
  itemize_ok oc pause _ _ (itemizeBody_strings oc pause ts h)

lemma dupStr_one (s : String) : dupStr 1 s = s := by
  simp [dupStr]

/-- C3: for a sequence of plain list items — no nested sequences and no
`include`-prefixed strings — `itemize` emits exactly one bullet entry per
item, in input order, each carrying the escaped item text. -/
theorem itemize_flat_one_bullet_per_item (oc : String → String) (pause : Bool)
    (ts : List String) (h : ∀ t ∈ ts, startswith t "include" = false) :
    itemize oc pause (ts.map .s) =
      .ok ("\n\t\\begin\x7bitemize\x7d" ++ pauseOpt pause ++
        joinStr (ts.map fun t => "\n\t\\item " ++ _escape_output t) ++
        "\n\t\\end\x7bitemize\x7d") :=
  itemize_strings oc pause ts h

/-- Witness for C3 at a concrete input. -/
theorem itemize_flat_one_bullet_per_item_witness :
    itemize (fun _ => "") true (["Alpha", "Beta"].map .s) =
      .ok ("\n\t\\begin\x7bitemize\x7d" ++ pauseOpt true ++
        joinStr (["Alpha", "Beta"].map fun t => "\n\t\\item " ++ _escape_output t) ++
        "\n\t\\end\x7bitemize\x7d") :=
  itemize_flat_one_bullet_per_item (fun _ => "") true ["Alpha", "Beta"] (by decide)

/-- C1: a nested list item with exactly one (label, children) pair emits one
bullet carrying the escaped label, immediately followed by the recursive
rendering of the children as a nested sub-list; in particular
`[[["Parent", ["Child1","Child2"]]]]` renders a bullet `Parent` followed by a
nested sub-list with bullets `Child1` then `Child2`, in that order. -/
theorem itemize_nested_single_pair (oc : String → String) (pause : Bool) :
    (∀ (lab : String) (ch : List LItem),
      renderItem oc pause (.nested [(lab, ch)]) =
        Except.map (fun sub => "\n\t\\item " ++ _escape_output lab ++ sub)
          (itemize oc pause ch)) ∧
    itemize oc pause [.nested [("Parent", [.s "Child1", .s "Child2"])]] =
      .ok ("\n\t\\begin\x7bitemize\x7d" ++ pauseOpt pause ++
        ("\n\t\\item Parent" ++
          ("\n\t\\begin\x7bitemize\x7d" ++ pauseOpt pause ++
            "\n\t\\item Child1\n\t\\item Child2" ++ "\n\t\\end\x7bitemize\x7d") ++ "") ++
        "\n\t\\end\x7bitemize\x7d") := by
  constructor
  · intro lab ch
    rw [renderItem_nested_map]
    cases h : itemize oc pause ch with
    | error e => rfl
    | ok sub => simp [Except.map, dupStr]
  · have hch : itemize oc pause [.s "Child1", .s "Child2"] =
        .ok ("\n\t\\begin\x7bitemize\x7d" ++ pauseOpt pause ++
          joinStr (["Child1", "Child2"].map fun t => "\n\t\\item " ++ _escape_output t) ++
          "\n\t\\end\x7bitemize\x7d") :=
      itemize_strings oc pause ["Child1", "Child2"] (by decide)
    have hri := renderItem_nested_ok oc pause "Parent" _ [] _ hch
    have hb := itemizeBody_cons_ok oc pause _ [] _ _ hri (itemizeBody_nil oc pause)
    have hfin := itemize_ok oc pause _ _ hb
    rw [hfin]
    congr 1
    cases pause <;> decide

/-- C9: for a nested list item with `n` (label, children) pairs, the output
depends only on the first pair and on `n`: the first pair's bullet and
sub-list are emitted `n` times in a row and later pairs are never read; in
particular a wrapping list with the two pairs `("A", [])` and `("B", [])`
renders the `A` bullet (with its empty sub-list) twice and `B` nowhere. -/
theorem itemize_nested_first_pair_duplicated (oc : String → String) (pause : Bool) :
    (∀ (lab : String) (ch : List LItem) (rest : List (String × List LItem)),
      renderItem oc pause (.nested ((lab, ch) :: rest)) =
        Except.map
          (fun sub => dupStr (rest.length + 1) ("\n\t\\item " ++ _escape_output lab ++ sub))
          (itemize oc pause ch)) ∧
    itemize oc pause [.nested [("A", []), ("B", [])]] =
      .ok ("\n\t\\begin\x7bitemize\x7d" ++ pauseOpt pause ++
        ("\n\t\\item A" ++
            ("\n\t\\begin\x7bitemize\x7d" ++ pauseOpt pause ++ "\n\t\\end\x7bitemize\x7d") ++
          ("\n\t\\item A" ++
            ("\n\t\\begin\x7bitemize\x7d" ++ pauseOpt pause ++ "\n\t\\end\x7bitemize\x7d") ++
            "") ++ "") ++
        "\n\t\\end\x7bitemize\x7d") := by
  constructor
  · intro lab ch rest
    exact renderItem_nested_map oc pause lab ch rest
  · have h0 : itemize oc pause [] =
        .ok ("\n\t\\begin\x7bitemize\x7d" ++ pauseOpt pause ++ "" ++
          "\n\t\\end\x7bitemize\x7d") :=
      itemize_ok oc pause [] "" (itemizeBody_nil oc pause)
    have hri := renderItem_nested_ok oc pause "A" [] [("B", [])] _ h0
    have hb := itemizeBody_cons_ok oc pause _ [] _ _ hri (itemizeBody_nil oc pause)
    have hfin := itemize_ok oc pause _ _ hb
    rw [hfin]
    congr 1
    cases pause <;> decide

/-- The polymorphic frame-content value delivered by the pair loader: an
ordered sequence of list items, an ordered option mapping (a list of pairs),
a bare scalar string, a number, or nothing (an empty frame body). -/
inductive FCont where
  | seq (l : List LItem)
  | pairsv (l : List (String × String))
  | str (s : String)
  | intv (n : Int)
  | nullv

/-- Error value of the embedded `frame`: the Python exception together with
the `(title, items)` diagnostic that `frame` writes to stderr before
re-raising when the exception is a `TypeError` (source lines 79-82);
`reported = none` means the exception escaped without that diagnostic. -/
structure FrameErr where
  reported : Option (String × FCont)
  err : PyErr

/-- `itemize` as applied by `frame` to raw frame content (source line 78).
Iterating a bare string yields its characters as one-character strings (none
of which starts with `include`); iterating `None` or a number raises
`TypeError`; iterating an ordered mapping yields tuples, whose missing
`startswith` attribute raises `AttributeError` on the first item. -/
def itemizeF (oc : String → String) (pause : Bool) : FCont → Except PyErr String
  | .seq l => itemize oc pause l
  | .str s => itemize oc pause (s.data.map fun c => .s (String.mk [c]))
  | .pairsv [] => itemize oc pause []
  | .pairsv (_ :: _) => .error .attributeError
  | .intv _ => .error .typeError
  | .nullv => .error .typeError

/-- One step of building `dict(options)`: a later duplicate key overwrites
the stored value, a fresh key is appended.  Iteration order of the resulting
dict is modelled as insertion order. -/
def dictUpdate (acc : List (String × String)) (kv : String × String) :
    List (String × String) :=
  if kv.1 ∈ acc.map Prod.fst then
    acc.map fun p => if p.1 = kv.1 then (p.1, kv.2) else p
  else acc ++ [kv]

/-- `dict(options).items()` for an ordered option mapping. -/
def dictItems (l : List (String × String)) : List (String × String) :=
  l.foldl dictUpdate []

/-- The option serialization of `image` (source lines 213-215):
`if not options: options = ""` followed by
`",".join("%s=%s" % (k, v) for k, v in dict(options).items())`.  Falsy
contents (`None`, empty sequences, the empty string, zero) become the empty
option string; `dict` of a non-pair sequence raises `ValueError` and `dict`
of a number raises `TypeError`. -/
def optionsStr : FCont → Except PyErr String
  | .nullv => .ok ""
  | .pairsv [] => .ok ""
  | .seq [] => .ok ""
  | .str "" => .ok ""
  | .intv 0 => .ok ""
  | .pairsv l => .ok (String.intercalate "," ((dictItems l).map fun kv => kv.1 ++ "=" ++ kv.2))
  | .seq (_ :: _) => .error .valueError
  | .str _ => .error .valueError
  | .intv _ => .error .typeError

/-- `image` (source lines 208-220). -/
def image (title : String) (options : FCont) : Except PyErr String :=
  match optionsStr options with
  | .error e => .error e
  | .ok os =>
    match tok1 title with
    | none => .error .indexError
    | some path =>
      .ok ("\n\\frame[shrink] \x7b" ++
        ("\n\t\\pgfimage[" ++ os ++ "]\x7b" ++ path ++ "\x7d") ++ "\n\x7d")

/-- `code` (source lines 184-195): a full code-include frame whose heading
embeds the second title token verbatim, without escaping.  `oc` stands for
`_output_code`, the file-reading collaborator. -/
def code (oc : String → String) (title : String) : Except PyErr String :=
  match tok1 title with
  | none => .error .indexError
  | some filename =>
    .ok ("\n\\begin\x7bframe\x7d[fragile,t]" ++
      ("\n\t\\frametitle\x7bCode: \"" ++ filename ++ "\"\x7d") ++
      oc filename ++ "\n\\end\x7bframe\x7d")

/-- `frame` (source lines 65-84): dispatch on the title prefix; in the plain
branch only a `TypeError` from `itemize` is reported with the offending title
and content before re-raising, and no partial frame output survives. -/
def frame (oc : String → String) (pause : Bool) (title : String) (items : FCont) :
    Except FrameErr String :=
  if startswith title "include" then
    match code oc title with
    | .error e => .error ⟨none, e⟩
    | .ok s => .ok s
  else if startswith title "image" then
    match image title items with
    | .error e => .error ⟨none, e⟩
    | .ok s => .ok s
  else
    match itemizeF oc pause items with
    | .error e =>
      if e = .typeError then .error ⟨some (title, items), e⟩ else .error ⟨none, e⟩
    | .ok s =>
      .ok ("\n\\begin\x7bframe\x7d[fragile,t]" ++
        ("\n\t\\frametitle\x7b" ++ _escape_output title ++ "\x7d") ++ s ++
        "\n\\end\x7bframe\x7d")

/-- `section` (source lines 53-57); `section` is a Lean keyword, hence the
trailing underscore. -/
def section_ (title : String) : String :=
  "\n\n\\section\x7b" ++ _escape_output title ++ "\x7d"

/-- `subsection` (source lines 59-63). -/
def subsection (title : String) : String :=
  "\n\\subsection\x7b" ++ _escape_output title ++ "\x7d"

/-- A metadata value: a scalar string or a boolean. -/
inductive MVal where
  | s (v : String)
  | b (v : Bool)

/-- Lookup in the metadata dict built by `dict(doc[0][1])`: a later duplicate
key wins. -/
def mget (m : List (String × MVal)) (k : String) : Option MVal :=
  match m with
  | [] => none
  | (k', v) :: rest =>
    match mget rest k with
    | some w => some w
    | none => if k' = k then some v else none

/-- Python `"%s" % value` for a metadata value. -/
def mvalStr : MVal → String
  | .s v => v
  | .b true => "True"
  | .b false => "False"

/-- Python truthiness of a metadata value. -/
def truthyV : MVal → Bool
  | .s v => !(v == "")
  | .b v => v

/-- `metas.get(k, d)` followed by `%s` formatting. -/
def mgetS (m : List (String × MVal)) (k d : String) : String :=
  match mget m k with
  | some v => mvalStr v
  | none => d

/-- `metas.has_key(k)`. -/
def haskey (m : List (String × MVal)) (k : String) : Bool := (mget m k).isSome

/-- `metas.get('outline', True)` used as an `if` condition. -/
def outlineFlag (m : List (String × MVal)) : Bool :=
  match mget m "outline" with
  | none => true
  | some v => truthyV v

/-- `header` (source lines 222-272).  `avail` is the availability of the
pygments collaborator and `gsd` maps a style name to its style definitions
(`LatexFormatter(style=...).get_style_defs()`). -/
def header (avail : Bool) (gsd : String → String) (metas : List (String × MVal)) :
    String :=
  "\\documentclass[slidestop,red]\x7bbeamer\x7d" ++
  "\n\\usepackage[utf8]\x7binputenc\x7d" ++
  (match mget metas "tex_babel" with
   | some v => if truthyV v then "\n\\usepackage[" ++ mvalStr v ++ "]\x7bbabel\x7d" else ""
   | none => "") ++
  (match mget metas "tex_fontenc" with
   | some v => if truthyV v then "\n\\usepackage[" ++ mvalStr v ++ "]\x7bfontenc\x7d" else ""
   | none => "") ++
  "\n\\usepackage\x7bfancyvrb,color\x7d\n\n" ++
  (if avail then gsd (mgetS metas "highlight_style" "default")
   else "\\usepackage\x7blistings\x7d\n" ++ "\\lstset\x7bnumbers=left\x7d") ++
  "\n\n\\usetheme\x7bAntibes\x7d" ++
  "\n\\setbeamertemplate\x7bfootline\x7d[frame number]" ++
  "\n\\usecolortheme\x7blily\x7d" ++
  "\n\\beamertemplateshadingbackground\x7bblue!5\x7d\x7byellow!10\x7d" ++
  "\n\n\\title" ++
  (if haskey metas "short_title" then "[" ++ mgetS metas "short_title" "" ++ "]" else "") ++
  ("\x7b" ++ mgetS metas "title" "Example Presentation" ++ "\x7d") ++
  ("\n\\author\x7b" ++ mgetS metas "author" "Arthur Koziel" ++ "\x7d") ++
  ("\n\\institute\x7b" ++ mgetS metas "institute" "" ++ "\x7d") ++
  ("\n\\date\x7b" ++ mgetS metas "date" "\\today" ++ "\x7d") ++
  "\n\n\\begin\x7bdocument\x7d" ++
  "\n\n\\frame\x7b\\titlepage\x7d" ++
  (if outlineFlag metas then
    ("\n\n\\section*\x7b" ++ mgetS metas "outline_name" "Outline" ++ "\x7d") ++
    "\n\\frame \x7b" ++
    ("\n\t\\frametitle\x7b" ++ mgetS metas "outline_name" "Outline" ++ "\x7d") ++
    "\n\t\\tableofcontents" ++
    "\n\x7d" ++
    "\n\n\\AtBeginSection[] \x7b" ++
    "\n\t\\frame\x7b" ++
    ("\n\t\t\\frametitle\x7b" ++ mgetS metas "outline_name" "Outline" ++ "\x7d") ++
    "\n\t\t\\tableofcontents[currentsection]" ++
    "\n\t\x7d" ++
    "\n\x7d"
   else "")

/-- `footer` (source lines 274-279). -/
def footer : String := "\n\\end\x7bdocument\x7d"

/-- The innermost loop of `main` (source lines 312-313). -/
def renderFrames (oc : String → String) (pause : Bool) :
    List (String × FCont) → Except FrameErr String
  | [] => .ok ""
  | (t, c) :: rest =>
    match frame oc pause t c with
    | .error e => .error e
    | .ok s =>
      match renderFrames oc pause rest with
      | .error e => .error e
      | .ok r => .ok (s ++ r)

/-- The subsection loop of `main` (source lines 310-313). -/
def renderSubs (oc : String → String) (pause : Bool) :
    List (String × List (String × FCont)) → Except FrameErr String
  | [] => .ok ""
  | (t, fs) :: rest =>
    match renderFrames oc pause fs with
    | .error e => .error e
    | .ok s =>
      match renderSubs oc pause rest with
      | .error e => .error e
      | .ok r => .ok (subsection t ++ s ++ r)

/-- The section loop of `main` (source lines 308-313). -/
def renderSecs (oc : String → String) (pause : Bool) :
    List (String × List (String × List (String × FCont))) → Except FrameErr String
  | [] => .ok ""
  | (t, subs) :: rest =>
    match renderSubs oc pause subs with
    | .error e => .error e
    | .ok s =>
      match renderSecs oc pause rest with
      | .error e => .error e
      | .ok r => .ok (section_ t ++ s ++ r)

/-- The document assembly of `main` (source lines 307-314), after the
optional `metas` entry has been stripped: header, the three-level traversal,
footer.  Any error yields no partial document. -/
def main_render (avail : Bool) (gsd oc : String → String) (pause : Bool)
    (metas : List (String × MVal))
    (doc : List (String × List (String × List (String × FCont)))) :
    Except FrameErr String :=
  match renderSecs oc pause doc with
  | .error e => .error e
  | .ok body => .ok (header avail gsd metas ++ body ++ footer)

lemma sw_image_not_include (path : String) :
    startswith ("image " ++ path) "include" = false := by
  have h : ("image " ++ path).data = 'i' :: 'm' :: 'a' :: 'g' :: 'e' :: ' ' :: path.data := by
    rw [String.data_append]
    rfl
  unfold startswith
  rw [h]
  rfl

lemma sw_image_image (path : String) :
    startswith ("image " ++ path) "image" = true := by
  have h : ("image " ++ path).data = 'i' :: 'm' :: 'a' :: 'g' :: 'e' :: ' ' :: path.data := by
    rw [String.data_append]
    rfl
  unfold startswith
  rw [h]
  rfl

lemma tok1_word_word (w p : String) (hw : ' ' ∉ w.data) (hp : ' ' ∉ p.data) :
    tok1 (w ++ " " ++ p) = some p := by
  unfold tok1 split_sp
  have hdata : (w ++ " " ++ p).data = w.data ++ ' ' :: p.data := by
    rw [String.data_append, String.data_append, List.append_assoc]
    rfl
  rw [hdata, splitSp_word w.data _ hw, splitSp_no_sp _ hp]
  rfl

lemma foldl_dictUpdate (l : List (String × String)) :
    ∀ acc : List (String × String), (∀ k ∈ l.map Prod.fst, k ∉ acc.map Prod.fst) →
    (l.map Prod.fst).Nodup → l.foldl dictUpdate acc = acc ++ l := by
  induction l with
  | nil => intro acc _ _; simp
  | cons kv rest ih =>
    intro acc hdisj hnd
    have hk : kv.1 ∉ acc.map Prod.fst := hdisj kv.1 (by simp)
    have hstep : dictUpdate acc kv = acc ++ [kv] := by
      rw [dictUpdate, if_neg hk]
    have hnd' : (rest.map Prod.fst).Nodup := by
      simpa using hnd.of_cons
    have hdisj' : ∀ k ∈ rest.map Prod.fst, k ∉ (acc ++ [kv]).map Prod.fst := by
      intro k hkmem
      simp only [List.map_append, List.mem_append, List.map_cons, List.map_nil,
        List.mem_singleton, not_or]
      refine ⟨hdisj k (by simp [hkmem]), ?_⟩
      intro hkeq
      have : kv.1 ∈ rest.map Prod.fst := hkeq ▸ hkmem
      exact (List.nodup_cons.mp (by simpa using hnd)).1 this
    calc (kv :: rest).foldl dictUpdate acc = rest.foldl dictUpdate (dictUpdate acc kv) := rfl
      _ = rest.foldl dictUpdate (acc ++ [kv]) := by rw [hstep]
      _ = (acc ++ [kv]) ++ rest := ih (acc ++ [kv]) hdisj' hnd'
      _ = acc ++ (kv :: rest) := by simp

lemma dictItems_nodup (l : List (String × String)) (h : (l.map Prod.fst).Nodup) :
    dictItems l = l := by
  have := foldl_dictUpdate l [] (by simp) h
  simpa [dictItems] using this

/-- C5: for a document with zero sections the assembled output is exactly the
header concatenated with the fixed footer, with no section, subsection or
frame markup in between. -/
theorem main_render_no_sections (avail : Bool) (gsd oc : String → String)
    (pause : Bool) (metas : List (String × MVal)) :
    main_render avail gsd oc pause metas [] = .ok (header avail gsd metas ++ footer) := by
  simp [main_render, renderSecs]

/-- C7: on the empty metadata mapping the header still produces the complete
preamble using all documented defaults: no babel/fontenc lines, the
`default` highlight style (or the plain listings fallback), the placeholder
title `Example Presentation` with no short title, the default author, an
empty institute, the `\today` date marker, and the outline frame plus the
per-section recurring outline frame, with no error. -/
theorem header_empty_metas_defaults (gsd : String → String) :
    header true gsd [] =
      "\\documentclass[slidestop,red]\x7bbeamer\x7d\n\\usepackage[utf8]\x7binputenc\x7d\n\\usepackage\x7bfancyvrb,color\x7d\n\n" ++
        (gsd "default" ++
          "\n\n\\usetheme\x7bAntibes\x7d\n\\setbeamertemplate\x7bfootline\x7d[frame number]\n\\usecolortheme\x7blily\x7d\n\\beamertemplateshadingbackground\x7bblue!5\x7d\x7byellow!10\x7d\n\n\\title\x7bExample Presentation\x7d\n\\author\x7bArthur Koziel\x7d\n\\institute\x7b\x7d\n\\date\x7b\\today\x7d\n\n\\begin\x7bdocument\x7d\n\n\\frame\x7b\\titlepage\x7d\n\n\\section*\x7bOutline\x7d\n\\frame \x7b\n\t\\frametitle\x7bOutline\x7d\n\t\\tableofcontents\n\x7d\n\n\\AtBeginSection[] \x7b\n\t\\frame\x7b\n\t\t\\frametitle\x7bOutline\x7d\n\t\t\\tableofcontents[currentsection]\n\t\x7d\n\x7d") ∧
    header false gsd [] =
      "\\documentclass[slidestop,red]\x7bbeamer\x7d\n\\usepackage[utf8]\x7binputenc\x7d\n\\usepackage\x7bfancyvrb,color\x7d\n\n\\usepackage\x7blistings\x7d\n\\lstset\x7bnumbers=left\x7d\n\n\\usetheme\x7bAntibes\x7d\n\\setbeamertemplate\x7bfootline\x7d[frame number]\n\\usecolortheme\x7blily\x7d\n\\beamertemplateshadingbackground\x7bblue!5\x7d\x7byellow!10\x7d\n\n\\title\x7bExample Presentation\x7d\n\\author\x7bArthur Koziel\x7d\n\\institute\x7b\x7d\n\\date\x7b\\today\x7d\n\n\\begin\x7bdocument\x7d\n\n\\frame\x7b\\titlepage\x7d\n\n\\section*\x7bOutline\x7d\n\\frame \x7b\n\t\\frametitle\x7bOutline\x7d\n\t\\tableofcontents\n\x7d\n\n\\AtBeginSection[] \x7b\n\t\\frame\x7b\n\t\t\\frametitle\x7bOutline\x7d\n\t\t\\tableofcontents[currentsection]\n\t\x7d\n\x7d" := by
  constructor <;>
    simp [header, mget, mgetS, haskey, outlineFlag, truthyV, mvalStr,
      String.append_assoc]

/-- C4 (counterexample): a frame whose content is a bare string does not have
the shape `itemize` expects, yet rendering is not fatal: Python iterates the
string character by character, so the frame renders successfully with one
bullet per character instead of reporting and re-raising an error. -/
theorem frame_malformed_string_renders_counterexample :
    frame (fun _ => "") true "T" (.str "hi") =
      .ok ("\n\\begin\x7bframe\x7d[fragile,t]\n\t\\frametitle\x7bT\x7d\n\t\\begin\x7bitemize\x7d[<+-| alert@+>]\n\t\\item h\n\t\\item i\n\t\\end\x7bitemize\x7d\n\\end\x7bframe\x7d") := by
  have hit : itemizeF (fun _ => "") true (.str "hi") =
      itemize (fun _ => "") true (["h", "i"].map .s) := rfl
  have h2 := itemize_strings (fun _ => "") true ["h", "i"] (by decide)
  have h4 : itemizeF (fun _ => "") true (.str "hi") =
      .ok "\n\t\\begin\x7bitemize\x7d[<+-| alert@+>]\n\t\\item h\n\t\\item i\n\t\\end\x7bitemize\x7d" := by
    rw [hit, h2]
    congr 1
  have hc1 : startswith "T" "include" = false := by decide
  have hc2 : startswith "T" "image" = false := by decide
  simp only [frame, hc1, hc2, h4]
  congr 1

/-- C4 (amended): for a frame (with a non-include, non-image title) whose
content is not iterable — absent (`None`) or a number — rendering is fatal:
the offending title and content are reported for diagnosis and the
`TypeError` is re-raised, with no recovery and no partial frame output.
(Iterable malformed shapes behave differently: a bare string renders one
bullet per character with no error, and a nonempty mapping raises an
`AttributeError` that propagates without the diagnostic report.) -/
theorem frame_noniterable_fatal_reported (oc : String → String) (pause : Bool)
    (title : String) (c : FCont)
    (h1 : startswith title "include" = false) (h2 : startswith title "image" = false)
    (h3 : c = .nullv ∨ ∃ n, c = .intv n) :
    frame oc pause title c = .error ⟨some (title, c), .typeError⟩ := by
  have hF : itemizeF oc pause c = .error .typeError := by
    rcases h3 with h | ⟨n, h⟩ <;> subst h <;> rfl
  simp [frame, h1, h2, hF]

/-- Witness for the amended C4 theorem at a concrete input. -/
theorem frame_noniterable_fatal_reported_witness :
    frame (fun _ => "") true "T" .nullv = .error ⟨some ("T", .nullv), .typeError⟩ :=
  frame_noniterable_fatal_reported (fun _ => "") true "T" .nullv (by decide) (by decide)
    (Or.inl rfl)

/-- C6: a frame whose title starts with `image` produces an image-inclusion
block whose path is the second whitespace-separated token of the title and
whose display options are the content mapping serialized as comma-joined
`key=value` pairs; in particular `image diagram.png` with
`{"width": "5cm"}` yields option string `width=5cm` and path
`diagram.png`. -/
theorem frame_image_block (oc : String → String) (pause : Bool) :
    (∀ (path : String) (opts : List (String × String)), ' ' ∉ path.data →
      (opts.map Prod.fst).Nodup →
      frame oc pause ("image " ++ path) (.pairsv opts) =
        .ok ("\n\\frame[shrink] \x7b" ++
          ("\n\t\\pgfimage[" ++
            String.intercalate "," (opts.map fun kv => kv.1 ++ "=" ++ kv.2) ++
            "]\x7b" ++ path ++ "\x7d") ++ "\n\x7d")) ∧
    frame oc pause "image diagram.png" (.pairsv [("width", "5cm")]) =
      .ok "\n\\frame[shrink] \x7b\n\t\\pgfimage[width=5cm]\x7bdiagram.png\x7d\n\x7d" := by
  constructor
  · intro path opts hp hk
    have hA := sw_image_not_include path
    have hB := sw_image_image path
    have ht : tok1 ("image " ++ path) = some path :=
      tok1_word_word "image" path (by decide) hp
    have hio : image ("image " ++ path) (.pairsv opts) =
        .ok ("\n\\frame[shrink] \x7b" ++
          ("\n\t\\pgfimage[" ++
            String.intercalate "," (opts.map fun kv => kv.1 ++ "=" ++ kv.2) ++
            "]\x7b" ++ path ++ "\x7d") ++ "\n\x7d") := by
      cases opts with
      | nil =>
        have hz : String.intercalate "," ([] : List String) = "" := by decide
        simp [image, optionsStr, ht, hz]
      | cons kv rest =>
        have hd : dictItems (kv :: rest) = kv :: rest := dictItems_nodup _ hk
        simp [image, optionsStr, ht, hd]
    simp [frame, hA, hB, hio]
  · rfl

/-- Witness for the general part of C6 at a concrete input. -/
theorem frame_image_block_witness :
    frame (fun _ => "") true ("image " ++ "diagram.png") (.pairsv [("width", "5cm")]) =
      .ok ("\n\\frame[shrink] \x7b" ++
        ("\n\t\\pgfimage[" ++
          String.intercalate "," ([("width", "5cm")].map fun kv => kv.1 ++ "=" ++ kv.2) ++
          "]\x7b" ++ "diagram.png" ++ "\x7d") ++ "\n\x7d") :=
  (frame_image_block (fun _ => "") true).1 "diagram.png" [("width", "5cm")]
    (by decide) (by decide)

/-- C10: section and subsection headings always pass their title through the
escaper before emission, while the code-include frame heading embeds the
filename token verbatim, without escaping; concretely `a_b` gains the
underscore escape in a section heading but `a_b.py` stays raw in a code
frame heading. -/
theorem headings_escaping_contrast :
    (∀ t : String, section_ t = "\n\n\\section\x7b" ++ _escape_output t ++ "\x7d") ∧
    (∀ t : String, subsection t = "\n\\subsection\x7b" ++ _escape_output t ++ "\x7d") ∧
    (∀ (oc : String → String) (fn : String), ' ' ∉ fn.data →
      code oc ("include " ++ fn) =
        .ok ("\n\\begin\x7bframe\x7d[fragile,t]" ++
          ("\n\t\\frametitle\x7bCode: \"" ++ fn ++ "\"\x7d") ++
          oc fn ++ "\n\\end\x7bframe\x7d")) ∧
    section_ "a_b" = "\n\n\\section\x7ba\\_b\x7d" ∧
    code (fun _ => "") "include a_b.py" =
      .ok "\n\\begin\x7bframe\x7d[fragile,t]\n\t\\frametitle\x7bCode: \"a_b.py\"\x7d\n\\end\x7bframe\x7d" := by
  refine ⟨fun t => rfl, fun t => rfl, ?_, by decide, rfl⟩
  intro oc fn hf
  have ht : tok1 ("include " ++ fn) = some fn :=
    tok1_word_word "include" fn (by decide) hf
  simp [code, ht]

/-- Witness for the code-frame part of C10 at a concrete input. -/
theorem headings_escaping_contrast_witness :
    code (fun _ => "ocout") ("include " ++ "x.py") =
      .ok ("\n\\begin\x7bframe\x7d[fragile,t]" ++
        ("\n\t\\frametitle\x7bCode: \"" ++ "x.py" ++ "\"\x7d") ++
        (fun _ : String => "ocout") "x.py" ++ "\n\\end\x7bframe\x7d") :=
  headings_escaping_contrast.2.2.1 (fun _ => "ocout") "x.py" (by decide)

end Yml2tex
